import Mathlib

/-!
Verification development for the LocustDB core: a shallow embedding of the
query normalizer, the sort planner of `NormalFormQuery::run`, the table
ingest/seal logic, the SQL-AST-to-`Query` conversion, the `reify_types`
typed-dispatch semantics, and the `Cast` conversion matrix, together with
theorems settling the specification claims about them.
-/

set_option maxRecDepth 4000

namespace Cst

/-- Model of `mem_store::Val` (variants used by `type_conversion.rs`:
`Integer`, `Str`, `Float`, plus a representative for the remaining
variants covered by the panicking `_` arms). Float payloads are never
computed on by any cast, only moved, so they are modelled by an opaque
integer payload (the bit pattern). -/
inductive Val where
  | integer (i : Int)
  | str (s : String)
  | float (bits : Int)
  | null
  deriving DecidableEq, Repr

/-- A runtime value of one of the element types appearing in the `Cast`
trait impls of `type_conversion.rs`. Unsigned payloads are natural
numbers, signed payloads are integers. -/
inductive RVal where
  | u8 (v : Nat)
  | u16 (v : Nat)
  | u32 (v : Nat)
  | u64 (v : Nat)
  | i64 (v : Int)
  | f64 (bits : Int)
  | str (s : String)
  | optStr (s : Option String)
  | val (v : Val)
  deriving DecidableEq, Repr

/-- The target types of the cast matrix in `type_conversion.rs`. -/
inductive CTarget where
  | u8 | u16 | u32 | u64 | i64 | f64 | str | optStr | val
  deriving DecidableEq, Repr

/-- `Cast::<T>::cast` from `type_conversion.rs`: one arm per `impl Cast<..>`
in the source, plus the blanket identity impl `impl<T> Cast<T> for T`.
A Rust `as` conversion on integers truncates to the target width
(two's complement); the panicking arms of the `Val` impls are modelled
by `none`; source/target pairs with no impl are also `none`. -/
def rustCast : CTarget → RVal → Option RVal
  -- blanket identity impl `impl<T> Cast<T> for T`
  | .u8, .u8 v => some (.u8 v)
  | .u16, .u16 v => some (.u16 v)
  | .u32, .u32 v => some (.u32 v)
  | .u64, .u64 v => some (.u64 v)
  | .i64, .i64 v => some (.i64 v)
  | .f64, .f64 b => some (.f64 b)
  | .str, .str s => some (.str s)
  | .optStr, .optStr s => some (.optStr s)
  | .val, .val v => some (.val v)
  -- impl Cast<u8> for u16 / u32 / u64 / i64
  | .u8, .u16 v => some (.u8 (v % 256))
  | .u8, .u32 v => some (.u8 (v % 256))
  | .u8, .u64 v => some (.u8 (v % 256))
  | .u8, .i64 v => some (.u8 (v.emod 256).toNat)
  -- impl Cast<u16> for u8 / u32 / u64 / i64
  | .u16, .u8 v => some (.u16 v)
  | .u16, .u32 v => some (.u16 (v % 65536))
  | .u16, .u64 v => some (.u16 (v % 65536))
  | .u16, .i64 v => some (.u16 (v.emod 65536).toNat)
  -- impl Cast<u32> for u8 / u16 / u64 / i64
  | .u32, .u8 v => some (.u32 v)
  | .u32, .u16 v => some (.u32 v)
  | .u32, .u64 v => some (.u32 (v % 4294967296))
  | .u32, .i64 v => some (.u32 (v.emod 4294967296).toNat)
  -- impl Cast<i64> for u8 / u16 / u32 / u64
  | .i64, .u8 v => some (.i64 v)
  | .i64, .u16 v => some (.i64 v)
  | .i64, .u32 v => some (.i64 v)
  | .i64, .u64 v => some (.i64 (if v < 9223372036854775808 then (v : Int) else (v : Int) - 18446744073709551616))
  -- impl Cast<u64> for u8 / u16 / u32 / i64
  | .u64, .u8 v => some (.u64 v)
  | .u64, .u16 v => some (.u64 v)
  | .u64, .u32 v => some (.u64 v)
  | .u64, .i64 v => some (.u64 (v.emod 18446744073709551616).toNat)
  -- impl Cast<Val> for u8 / u16 / u32 / i64 / &str / OrderedFloat<f64>
  | .val, .u8 v => some (.val (.integer v))
  | .val, .u16 v => some (.val (.integer v))
  | .val, .u32 v => some (.val (.integer v))
  | .val, .i64 v => some (.val (.integer v))
  | .val, .str s => some (.val (.str s))
  | .val, .f64 b => some (.val (.float b))
  -- impl Cast<u8 / u16 / u32 / i64 / f64 / &str> for Val (panic on mismatch)
  | .u8, .val v => match v with
    | .integer i => some (.u8 (i.emod 256).toNat)
    | _ => none
  | .u16, .val v => match v with
    | .integer i => some (.u16 (i.emod 65536).toNat)
    | _ => none
  | .u32, .val v => match v with
    | .integer i => some (.u32 (i.emod 4294967296).toNat)
    | _ => none
  | .i64, .val v => match v with
    | .integer i => some (.i64 i)
    | _ => none
  | .f64, .val v => match v with
    | .float b => some (.f64 b)
    | _ => none
  | .str, .val v => match v with
    | .str s => some (.str s)
    | _ => none
  -- impl Cast<Option<&str>> for &str
  | .optStr, .str s => some (.optStr (some s))
  -- no impl for any other combination
  | _, _ => none

end Cst

namespace Tbl

/-- The state of a `Table` (`mem_store/table.rs`) as far as ingest is
concerned: the configured `batch_size`, the ids of the partitions in the
partition map, and the number of rows in the ingest buffer. The row
buffer type `ingest::buffer::Buffer` is not part of the excerpt; only
its row count is modelled (see the `Modelled from the spec:` comments
on the ingest entry points). -/
structure TableState where
  batchSize : Nat
  partitions : List Nat
  buffer : Nat
  deriving DecidableEq, Repr

/-- `HashMap::insert` on the partition map, tracking only the key set:
a fresh key is appended, an existing key overwrites in place. -/
def insertPartition (parts : List Nat) (id : Nat) : List Nat :=
  if id ∈ parts then parts else parts ++ [id]

/-- `Table::batch`: steal the buffer (leaving it empty), assign
`id = partitions.len()` to the new partition, insert it into the
partition map. -/
def batch (s : TableState) : TableState :=
  { s with buffer := 0,
           partitions := insertPartition s.partitions s.partitions.length }

/-- `Table::batch_if_needed`: seal iff the buffer holds at least
`batch_size` rows. The second component counts the seals performed. -/
def batchIfNeeded (s : TableState) : TableState × Nat :=
  if s.buffer < s.batchSize then (s, 0) else (batch s, 1)

/-- `Table::ingest`: push one row, then `batch_if_needed`.
Modelled from the spec: `Buffer::push_row` appends a single row to the
append-only row buffer (`ingest/buffer.rs` is not in the excerpt). -/
def ingest (s : TableState) : TableState × Nat :=
  batchIfNeeded { s with buffer := s.buffer + 1 }

/-- `Table::ingest_heterogeneous`: push the input columns, then
`batch_if_needed`. Modelled from the spec: `Buffer::push_untyped_cols`
appends the `n` rows carried by the input columns (`ingest/buffer.rs`
is not in the excerpt). -/
def ingestHeterogeneous (s : TableState) (n : Nat) : TableState × Nat :=
  batchIfNeeded { s with buffer := s.buffer + n }

/-- `Table::ingest_homogeneous`: push the input columns and return; the
source contains no `batch_if_needed` call on this path. Modelled from
the spec: `Buffer::push_typed_cols` appends the `n` rows carried by the
input columns (`ingest/buffer.rs` is not in the excerpt). -/
def ingestHomogeneous (s : TableState) (n : Nat) : TableState × Nat :=
  ({ s with buffer := s.buffer + n }, 0)

/-- One call of one of the two seal-checking ingest entry points. -/
inductive IngestOp where
  | row
  | hetero (n : Nat)
  deriving DecidableEq, Repr

/-- The number of rows an ingest call appends to the buffer. -/
def IngestOp.rows : IngestOp → Nat
  | .row => 1
  | .hetero n => n

/-- Dispatch one ingest call. -/
def applyOp (s : TableState) : IngestOp → TableState × Nat
  | .row => ingest s
  | .hetero n => ingestHeterogeneous s n

/-- Run a sequence of ingest calls. -/
def runOps (s : TableState) : List IngestOp → TableState
  | [] => s
  | op :: rest => runOps (applyOp s op).1 rest

/-- States reachable by pure ingest traffic on a table with batch size
`B`: partition ids are exactly `0, ..., len-1` and the buffer holds
fewer than `B` rows. -/
def tblInv (B : Nat) (s : TableState) : Prop :=
  s.batchSize = B ∧ s.partitions = List.range s.partitions.length ∧
  s.buffer < B

instance (B : Nat) (s : TableState) : Decidable (tblInv B s) := by
  unfold tblInv; infer_instance

theorem insertPartition_fresh (parts : List Nat)
    (hpart : parts = List.range parts.length) :
    insertPartition parts parts.length = parts ++ [parts.length] := by
  have hnotmem : parts.length ∉ parts := by
    intro hmem
    rw [hpart] at hmem
    simp [List.mem_range] at hmem
  simp [insertPartition, hnotmem]

theorem batchIfNeeded_spec (s : TableState)
    (hpart : s.partitions = List.range s.partitions.length) :
    (s.buffer < s.batchSize → batchIfNeeded s = (s, 0)) ∧
    (s.buffer ≥ s.batchSize →
      batchIfNeeded s =
        ({ s with buffer := 0,
                  partitions := s.partitions ++ [s.partitions.length] }, 1)) := by
  constructor
  · intro hlt
    simp [batchIfNeeded, hlt]
  · intro hge
    have hnlt : ¬ s.buffer < s.batchSize := not_lt.mpr hge
    simp [batchIfNeeded, hnlt, batch, insertPartition_fresh s.partitions hpart]

theorem applyOp_step (s : TableState) (op : IngestOp)
    (hB : 1 ≤ s.batchSize)
    (hpart : s.partitions = List.range s.partitions.length) :
    (applyOp s op).1.batchSize = s.batchSize ∧
    (applyOp s op).1.buffer < s.batchSize ∧
    (applyOp s op).1.partitions =
      List.range (applyOp s op).1.partitions.length ∧
    (s.buffer + op.rows ≥ s.batchSize →
      (applyOp s op).2 = 1 ∧ (applyOp s op).1.buffer = 0 ∧
      (applyOp s op).1.partitions = s.partitions ++ [s.partitions.length]) ∧
    (s.buffer + op.rows < s.batchSize →
      (applyOp s op).2 = 0 ∧ (applyOp s op).1.partitions = s.partitions ∧
      (applyOp s op).1.buffer = s.buffer + op.rows) := by
  have happ : applyOp s op = batchIfNeeded { s with buffer := s.buffer + op.rows } := by
    cases op with
    | row => rfl
    | hetero n => rfl
  set t : TableState := { s with buffer := s.buffer + op.rows } with ht
  have htpart : t.partitions = List.range t.partitions.length := hpart
  have hspec := batchIfNeeded_spec t htpart
  by_cases hcase : s.buffer + op.rows < s.batchSize
  · have := hspec.1 hcase
    rw [happ, this]
    refine ⟨rfl, hcase, htpart, ?_, ?_⟩
    · intro hge; exact absurd hcase (not_lt.mpr hge)
    · intro _; exact ⟨rfl, rfl, rfl⟩
  · have hge : t.buffer ≥ t.batchSize := not_lt.mp hcase
    have := hspec.2 hge
    rw [happ, this]
    refine ⟨rfl, hB, ?_, ?_, ?_⟩
    · show t.partitions ++ [t.partitions.length] =
        List.range (t.partitions ++ [t.partitions.length]).length
      rw [List.length_append, List.length_singleton, List.range_succ]
      rw [← htpart]
    · intro _; exact ⟨rfl, rfl, rfl⟩
    · intro hlt; exact absurd hlt hcase

theorem applyOp_inv (B : Nat) (hB : 1 ≤ B) (s : TableState) (op : IngestOp)
    (hinv : tblInv B s) : tblInv B (applyOp s op).1 := by
  obtain ⟨hbsz, hpart, _⟩ := hinv
  obtain ⟨h1, h2, h3, _⟩ := applyOp_step s op (hbsz ▸ hB) hpart
  exact ⟨hbsz ▸ h1, h3, hbsz ▸ h2⟩

theorem runOps_inv (B : Nat) (hB : 1 ≤ B) (ops : List IngestOp)
    (s : TableState) (hinv : tblInv B s) : tblInv B (runOps s ops) := by
  induction ops generalizing s with
  | nil => exact hinv
  | cons op rest ih => exact ih (applyOp s op).1 (applyOp_inv B hB s op hinv)

/-- A table with `batch_size = 2`, no partitions, empty buffer. -/
def tC2cex : TableState := ⟨2, [], 0⟩

/-- C2 counterexample: an `ingest_homogeneous` call that brings the
buffer to `batch_size` rows returns with the buffer still holding
`batch_size` rows, performs no seal, and inserts no partition. -/
theorem ingest_seal_counterexample :
    (ingestHomogeneous tC2cex 2).1.buffer = 2 ∧
    tC2cex.batchSize = 2 ∧
    (ingestHomogeneous tC2cex 2).2 = 0 ∧
    (ingestHomogeneous tC2cex 2).1.partitions = [] ∧
    (ingest ⟨0, [], 0⟩).1.buffer ≥ (⟨0, [], 0⟩ : TableState).batchSize := by
  decide

/-- C2 (amended): for every sequence of `ingest` and
`ingest_heterogeneous` calls on a fresh table with `batch_size ≥ 1`
(`ingest_homogeneous` performs no seal check and is excluded), the
ingest buffer holds fewer than `batch_size` rows after every call; and
from any reachable state, a call that brings the buffer to at least
`batch_size` rows performs exactly one seal, which resets the buffer
and inserts exactly one new partition whose id equals the number of
partitions present before the insertion, while a call that does not
performs no seal and leaves the partition map unchanged. -/
theorem table_ingest_seal (B : Nat) (hB : 1 ≤ B) (ops : List IngestOp)
    (s : TableState) (op : IngestOp) (hs : tblInv B s) :
    (runOps ⟨B, [], 0⟩ ops).buffer < B ∧
    (applyOp s op).1.buffer < B ∧
    (s.buffer + op.rows ≥ B →
      (applyOp s op).2 = 1 ∧ (applyOp s op).1.buffer = 0 ∧
      (applyOp s op).1.partitions = s.partitions ++ [s.partitions.length]) ∧
    (s.buffer + op.rows < B →
      (applyOp s op).2 = 0 ∧ (applyOp s op).1.partitions = s.partitions ∧
      (applyOp s op).1.buffer = s.buffer + op.rows) := by
  obtain ⟨hbsz, hpart, _⟩ := hs
  obtain ⟨_, h2, _, h4, h5⟩ := applyOp_step s op (hbsz ▸ hB) hpart
  have hinit : tblInv B ⟨B, [], 0⟩ := ⟨rfl, rfl, hB⟩
  refine ⟨(runOps_inv B hB ops _ hinit).2.2, hbsz ▸ h2, ?_, ?_⟩
  · intro hge; exact h4 (hbsz ▸ hge)
  · intro hlt; exact h5 (hbsz ▸ hlt)

/-- Witness for C2 at `batch_size = 2`, two single-row ingests already
done (state `⟨2, [0], 1⟩` is reachable), and a third row triggering a
seal. -/
theorem table_ingest_seal_witness :
    (runOps ⟨2, [], 0⟩ [.row, .row]).buffer < 2 ∧
    (applyOp ⟨2, [0], 1⟩ .row).1.buffer < 2 ∧
    ((⟨2, [0], 1⟩ : TableState).buffer + IngestOp.rows .row ≥ 2 →
      (applyOp ⟨2, [0], 1⟩ .row).2 = 1 ∧
      (applyOp ⟨2, [0], 1⟩ .row).1.buffer = 0 ∧
      (applyOp ⟨2, [0], 1⟩ .row).1.partitions =
        (⟨2, [0], 1⟩ : TableState).partitions ++
          [(⟨2, [0], 1⟩ : TableState).partitions.length]) ∧
    ((⟨2, [0], 1⟩ : TableState).buffer + IngestOp.rows .row < 2 →
      (applyOp ⟨2, [0], 1⟩ .row).2 = 0 ∧
      (applyOp ⟨2, [0], 1⟩ .row).1.partitions =
        (⟨2, [0], 1⟩ : TableState).partitions ∧
      (applyOp ⟨2, [0], 1⟩ .row).1.buffer =
        (⟨2, [0], 1⟩ : TableState).buffer + IngestOp.rows .row) :=
  table_ingest_seal 2 (by decide) [.row, .row] ⟨2, [0], 1⟩ .row (by decide)

/-- C8: `Table::ingest_homogeneous` only appends rows to the ingest
buffer: it leaves the partition map (and batch size) unchanged and
performs no seal, for every table state and every input row count,
even when the buffer reaches or exceeds `batch_size`. -/
theorem ingest_homogeneous_frame (s : TableState) (n : Nat) :
    (ingestHomogeneous s n).1.partitions = s.partitions ∧
    (ingestHomogeneous s n).1.batchSize = s.batchSize ∧
    (ingestHomogeneous s n).1.buffer = s.buffer + n ∧
    (ingestHomogeneous s n).2 = 0 :=
  ⟨rfl, rfl, rfl, rfl⟩

end Tbl

/-- `QueryError` from `errors.rs` (the variants visible in the excerpt:
`ParseError`, `TypeError`, `NotImplemented`, `FatalError`). -/
inductive QueryError where
  | parseError (s : String)
  | typeError (s : String)
  | notImplemented (s : String)
  | fatalError (s : String)
  deriving DecidableEq, Repr

instance {e a : Type} [DecidableEq e] [DecidableEq a] :
    DecidableEq (Except e a) := fun x y =>
  match x, y with
  | .ok v, .ok w =>
    if h : v = w then isTrue (by rw [h])
    else isFalse (by intro hc; injection hc; contradiction)
  | .error v, .error w =>
    if h : v = w then isTrue (by rw [h])
    else isFalse (by intro hc; injection hc; contradiction)
  | .ok _, .error _ => isFalse (fun hc => Except.noConfusion hc)
  | .error _, .ok _ => isFalse (fun hc => Except.noConfusion hc)

/-- `Aggregator` from `syntax/expression.rs`. The excerpt contains two
coexisting revisions of the enum: `parser.rs` uses `Count`/`Sum`,
`engine/planning/query.rs` uses `Count`/`SumI64`/`SumF64`/`MinI64`/
`MinF64`/`MaxI64`/`MaxF64`; this model is the union of the variants
referenced by the sources. -/
inductive Aggregator where
  | count | sum | sumI64 | sumF64 | minI64 | minF64 | maxI64 | maxF64
  deriving DecidableEq, Repr

/-- `Func1Type` from `syntax/expression.rs` (the variant used by the
sources). -/
inductive Func1Type where
  | toYear
  deriving DecidableEq, Repr

/-- `Func2Type` from `syntax/expression.rs` (the variants used by the
sources). -/
inductive Func2Type where
  | add | subtract | multiply | divide | and | or
  | gt | lt | equals | notEquals
  deriving DecidableEq, Repr

/-- `RawVal` from `ingest/raw_val.rs` (the variants used by the sources). -/
inductive RawVal where
  | int (i : Int)
  | str (s : String)
  | null
  deriving DecidableEq, Repr

/-- The expression tree `Expr` from `syntax/expression.rs`:
`Const | ColName | Func1 | Func2 | Aggregate`. -/
inductive Expr where
  | const (v : RawVal)
  | colName (s : String)
  | func1 (op : Func1Type) (e : Expr)
  | func2 (op : Func2Type) (e1 e2 : Expr)
  | aggregate (agg : Aggregator) (e : Expr)
  deriving DecidableEq, Repr

/-- Whether an expression contains an `Aggregate` node anywhere. -/
def Expr.hasAggregate : Expr → Bool
  | .const _ => false
  | .colName _ => false
  | .func1 _ e => e.hasAggregate
  | .func2 _ e1 e2 => e1.hasAggregate || e2.hasAggregate
  | .aggregate _ _ => true

/-- Whether an expression is a bare column reference (`Expr::ColName`). -/
def Expr.isColName : Expr → Bool
  | .colName _ => true
  | _ => false

/-- `LimitClause` from `syntax/limit.rs`: `limit` and `offset` are `u64`. -/
structure LimitClause where
  limit : Nat
  offset : Nat
  deriving DecidableEq, Repr

/-- `u64::MAX`. -/
def u64MAX : Nat := 18446744073709551615

namespace Norm

/-- `ColumnInfo` from `engine/planning/query.rs`. -/
structure ColumnInfo where
  expr : Expr
  name : Option String
  deriving DecidableEq, Repr

/-- `NormalFormQuery` from `engine/planning/query.rs`. -/
structure NormalFormQuery where
  projection : List ColumnInfo
  filter : Expr
  aggregate : List (Aggregator × ColumnInfo)
  orderBy : List (Expr × Bool)
  limit : LimitClause
  deriving DecidableEq, Repr

/-- `Query` from `engine/planning/query.rs`. -/
structure Query where
  select : List ColumnInfo
  table : String
  filter : Expr
  orderBy : List (Expr × Bool)
  limit : LimitClause
  deriving DecidableEq, Repr

/-- `Query::ensure_no_aggregates`. -/
def ensureNoAggregates : Expr → Except QueryError Unit
  | .aggregate _ _ => .error (.typeError "Nested aggregates found.")
  | .func1 _ e => ensureNoAggregates e
  | .func2 _ e1 e2 => do
    ensureNoAggregates e1
    ensureNoAggregates e2
  | .const _ => .ok ()
  | .colName _ => .ok ()

/-- `Query::extract_aggregators`. The Rust function threads the mutable
vector `column_names`; the model passes it explicitly and returns the
updated vector alongside the rewritten expression and the extracted
aggregates. -/
def extractAggregators : Expr → List String → Option String →
    Except QueryError (Expr × List (Aggregator × ColumnInfo) × List String)
  | .aggregate agg e, names, aliasN => do
    let columnName := "_ca" ++ toString names.length
    ensureNoAggregates e
    .ok (.colName columnName, [(agg, ⟨e, aliasN⟩)], names ++ [columnName])
  | .func1 t e, names, aliasN => do
    let (e2, aggs, names2) ← extractAggregators e names aliasN
    .ok (.func1 t e2, aggs, names2)
  | .func2 t e1 e2, names, aliasN => do
    let (f1, aggs1, names1) ← extractAggregators e1 names aliasN
    let (f2, aggs2, names2) ← extractAggregators e2 names1 aliasN
    .ok (.func2 t f1 f2, aggs1 ++ aggs2, names2)
  | .const v, names, _ => .ok (.const v, [], names)
  | .colName s, names, _ => .ok (.colName s, [], names)

/-- The mutable locals of the select loop in `Query::normalize`. -/
structure NormState where
  finalProjection : List ColumnInfo
  select : List ColumnInfo
  aggregate : List (Aggregator × ColumnInfo)
  aggregateColnames : List String
  selectColnames : List String
  deriving Repr

/-- One iteration of the select loop of `Query::normalize`. -/
def processSelectItem (st : NormState) (ci : ColumnInfo) :
    Except QueryError NormState := do
  let (fullExpr, aggs, newNames) ←
    extractAggregators ci.expr st.aggregateColnames ci.name
  if aggs.isEmpty then
    let columnName := "_cs" ++ toString st.selectColnames.length
    .ok { st with
      selectColnames := st.selectColnames ++ [columnName]
      select := st.select ++ [⟨fullExpr, ci.name⟩]
      finalProjection := st.finalProjection ++ [⟨.colName columnName, ci.name⟩]
      aggregateColnames := newNames }
  else
    .ok { st with
      aggregate := st.aggregate ++ aggs
      finalProjection := st.finalProjection ++ [⟨fullExpr, ci.name⟩]
      aggregateColnames := newNames }

/-- The select loop of `Query::normalize`. -/
def processSelect (st : NormState) : List ColumnInfo → Except QueryError NormState
  | [] => .ok st
  | ci :: rest => do processSelect (← processSelectItem st ci) rest

/-- One iteration of the order-by loop of `Query::normalize` (only run when
a final pass is required). The second state component is `final_order_by`. -/
def processOrderByItem (st : NormState × List (Expr × Bool)) (e : Expr × Bool) :
    Except QueryError (NormState × List (Expr × Bool)) := do
  let (fullExpr, aggs, newNames) ←
    extractAggregators e.1 st.1.aggregateColnames none
  if aggs.isEmpty then
    let columnName := "_cs" ++ toString st.1.selectColnames.length
    .ok ({ st.1 with
            selectColnames := st.1.selectColnames ++ [columnName]
            select := st.1.select ++ [⟨fullExpr, none⟩]
            aggregateColnames := newNames },
         st.2 ++ [(.colName columnName, e.2)])
  else
    .ok ({ st.1 with
            aggregate := st.1.aggregate ++ aggs
            aggregateColnames := newNames },
         st.2 ++ [(fullExpr, e.2)])

/-- The order-by loop of `Query::normalize`. -/
def processOrderBy (st : NormState × List (Expr × Bool)) :
    List (Expr × Bool) → Except QueryError (NormState × List (Expr × Bool))
  | [] => .ok st
  | e :: rest => do processOrderBy (← processOrderByItem st e) rest

/-- The `require_final_pass` condition computed by `Query::normalize`:
aggregates extracted from the select list coexist with an `ORDER BY`, or
some final projection is not a bare column reference. -/
def requireFinalPass (q : Query) : Except QueryError Bool := do
  let st ← processSelect ⟨[], [], [], [], []⟩ q.select
  .ok ((!st.aggregate.isEmpty && !q.orderBy.isEmpty)
    || st.finalProjection.any fun ci => !ci.expr.isColName)

/-- `Query::normalize` from `engine/planning/query.rs`. -/
def Query.normalize (q : Query) :
    Except QueryError (NormalFormQuery × Option NormalFormQuery) := do
  let st ← processSelect ⟨[], [], [], [], []⟩ q.select
  if (!st.aggregate.isEmpty && !q.orderBy.isEmpty)
      || st.finalProjection.any (fun ci => !ci.expr.isColName) then
    let (st2, finalOrderBy) ← processOrderBy (st, []) q.orderBy
    .ok (⟨st2.select, q.filter, st2.aggregate, [], ⟨u64MAX, 0⟩⟩,
         some ⟨st.finalProjection, .const (.int 1), [], finalOrderBy, q.limit⟩)
  else
    .ok (⟨st.select, q.filter, st.aggregate, q.orderBy, q.limit⟩, none)

end Norm

namespace Cst

/-- The element type a runtime value belongs to. -/
def RVal.outType : RVal → CTarget
  | .u8 _ => .u8
  | .u16 _ => .u16
  | .u32 _ => .u32
  | .u64 _ => .u64
  | .i64 _ => .i64
  | .f64 _ => .f64
  | .str _ => .str
  | .optStr _ => .optStr
  | .val _ => .val

theorem rustCast_self (y : RVal) : rustCast y.outType y = some y := by
  cases y <;> rfl

theorem rustCast_outType (T : CTarget) (x y : RVal)
    (h : rustCast T x = some y) : y.outType = T := by
  cases T <;> cases x <;>
    try (injection h with h2; subst h2; rfl)
  all_goals try exact Option.noConfusion h
  all_goals
    rename_i v
    cases v <;>
      first
        | (injection h with h2; subst h2; rfl)
        | exact Option.noConfusion h

theorem rustCast_idem (T : CTarget) (x y : RVal)
    (h : rustCast T x = some y) : rustCast T y = some y := by
  have ht := rustCast_outType T x y h
  rw [← ht]
  exact rustCast_self y

end Cst

namespace Norm

theorem ensureNoAggregates_ok (e : Expr) (u : Unit)
    (h : ensureNoAggregates e = .ok u) : e.hasAggregate = false := by
  induction e with
  | const v => rfl
  | colName s => rfl
  | func1 op e ih =>
    simp only [ensureNoAggregates] at h
    simp [Expr.hasAggregate, ih h]
  | func2 op e1 e2 ih1 ih2 =>
    simp only [ensureNoAggregates, Bind.bind, Except.bind] at h
    cases u
    cases h1 : ensureNoAggregates e1 with
    | error err => simp only [h1] at h; exact Except.noConfusion h
    | ok u1 =>
      cases u1
      simp only [h1] at h
      simp [Expr.hasAggregate, ih1 h1, ih2 h]
  | aggregate agg e ih => simp [ensureNoAggregates] at h

theorem extractAggregators_ok (e : Expr) (names : List String)
    (aliasN : Option String) (e2 : Expr) (aggs : List (Aggregator × ColumnInfo))
    (names2 : List String)
    (h : extractAggregators e names aliasN = .ok (e2, aggs, names2)) :
    e2.hasAggregate = false ∧ ∀ p ∈ aggs, p.2.expr.hasAggregate = false := by
  induction e generalizing names aliasN e2 aggs names2 with
  | const v =>
    simp only [extractAggregators, Except.ok.injEq, Prod.mk.injEq] at h
    obtain ⟨h1, h2, h3⟩ := h
    subst h1; subst h2
    exact ⟨rfl, by simp⟩
  | colName s =>
    simp only [extractAggregators, Except.ok.injEq, Prod.mk.injEq] at h
    obtain ⟨h1, h2, h3⟩ := h
    subst h1; subst h2
    exact ⟨rfl, by simp⟩
  | func1 op e ih =>
    simp only [extractAggregators, Bind.bind, Except.bind] at h
    cases he : extractAggregators e names aliasN with
    | error err => simp only [he] at h; exact Except.noConfusion h
    | ok r =>
      obtain ⟨f, fa, fn⟩ := r
      simp only [he] at h
      simp only [Except.ok.injEq, Prod.mk.injEq] at h
      obtain ⟨h1, h2, h3⟩ := h
      subst h1; subst h2
      obtain ⟨hf, hfa⟩ := ih names aliasN f fa fn he
      exact ⟨by simp [Expr.hasAggregate, hf], hfa⟩
  | func2 op e1 e2x ih1 ih2 =>
    simp only [extractAggregators, Bind.bind, Except.bind] at h
    cases he1 : extractAggregators e1 names aliasN with
    | error err => simp only [he1] at h; exact Except.noConfusion h
    | ok r1 =>
      obtain ⟨f1, fa1, fn1⟩ := r1
      simp only [he1] at h
      cases he2 : extractAggregators e2x fn1 aliasN with
      | error err => simp only [he2] at h; exact Except.noConfusion h
      | ok r2 =>
        obtain ⟨f2, fa2, fn2⟩ := r2
        simp only [he2] at h
        simp only [Except.ok.injEq, Prod.mk.injEq] at h
        obtain ⟨h1, h2, h3⟩ := h
        subst h1; subst h2
        obtain ⟨hf1, hfa1⟩ := ih1 names aliasN f1 fa1 fn1 he1
        obtain ⟨hf2, hfa2⟩ := ih2 fn1 aliasN f2 fa2 fn2 he2
        refine ⟨by simp [Expr.hasAggregate, hf1, hf2], ?_⟩
        intro p hp
        rcases List.mem_append.mp hp with hmem | hmem
        · exact hfa1 p hmem
        · exact hfa2 p hmem
  | aggregate agg e ih =>
    simp only [extractAggregators, Bind.bind, Except.bind] at h
    cases hen : ensureNoAggregates e with
    | error err => simp only [hen] at h; exact Except.noConfusion h
    | ok u =>
      simp only [hen] at h
      simp only [Except.ok.injEq, Prod.mk.injEq] at h
      obtain ⟨h1, h2, h3⟩ := h
      subst h1; subst h2
      refine ⟨rfl, ?_⟩
      intro p hp
      simp only [List.mem_singleton] at hp
      subst hp
      exact ensureNoAggregates_ok e u hen

/-- The aggregate-freeness invariant maintained by the loops of
`Query::normalize` over their accumulated `select` and `aggregate` lists. -/
def stInv (st : NormState) : Prop :=
  (∀ ci ∈ st.select, ci.expr.hasAggregate = false) ∧
  (∀ p ∈ st.aggregate, p.2.expr.hasAggregate = false)

theorem processSelectItem_inv (st st2 : NormState) (ci : ColumnInfo)
    (hinv : stInv st) (h : processSelectItem st ci = .ok st2) : stInv st2 := by
  simp only [processSelectItem, Bind.bind, Except.bind] at h
  cases he : extractAggregators ci.expr st.aggregateColnames ci.name with
  | error err => simp only [he] at h; exact Except.noConfusion h
  | ok r =>
    obtain ⟨f, fa, fn⟩ := r
    simp only [he] at h
    obtain ⟨hf, hfa⟩ := extractAggregators_ok _ _ _ _ _ _ he
    by_cases hemp : fa.isEmpty
    · rw [if_pos hemp] at h
      simp only [Except.ok.injEq] at h
      subst h
      refine ⟨?_, hinv.2⟩
      intro c hc
      rcases List.mem_append.mp hc with hmem | hmem
      · exact hinv.1 c hmem
      · simp only [List.mem_singleton] at hmem
        subst hmem
        exact hf
    · rw [if_neg hemp] at h
      simp only [Except.ok.injEq] at h
      subst h
      refine ⟨hinv.1, ?_⟩
      intro p hp
      rcases List.mem_append.mp hp with hmem | hmem
      · exact hinv.2 p hmem
      · exact hfa p hmem

theorem processSelect_inv (l : List ColumnInfo) (st st2 : NormState)
    (hinv : stInv st) (h : processSelect st l = .ok st2) : stInv st2 := by
  induction l generalizing st with
  | nil =>
    simp only [processSelect, Except.ok.injEq] at h
    subst h; exact hinv
  | cons ci rest ih =>
    simp only [processSelect, Bind.bind, Except.bind] at h
    cases hstep : processSelectItem st ci with
    | error err => simp only [hstep] at h; exact Except.noConfusion h
    | ok stm =>
      simp only [hstep] at h
      exact ih stm (processSelectItem_inv st stm ci hinv hstep) h

theorem processOrderByItem_inv (st st2 : NormState × List (Expr × Bool))
    (e : Expr × Bool) (hinv : stInv st.1)
    (h : processOrderByItem st e = .ok st2) : stInv st2.1 := by
  simp only [processOrderByItem, Bind.bind, Except.bind] at h
  cases he : extractAggregators e.1 st.1.aggregateColnames none with
  | error err => simp only [he] at h; exact Except.noConfusion h
  | ok r =>
    obtain ⟨f, fa, fn⟩ := r
    simp only [he] at h
    obtain ⟨hf, hfa⟩ := extractAggregators_ok _ _ _ _ _ _ he
    by_cases hemp : fa.isEmpty
    · rw [if_pos hemp] at h
      simp only [Except.ok.injEq] at h
      subst h
      refine ⟨?_, hinv.2⟩
      intro c hc
      rcases List.mem_append.mp hc with hmem | hmem
      · exact hinv.1 c hmem
      · simp only [List.mem_singleton] at hmem
        subst hmem
        exact hf
    · rw [if_neg hemp] at h
      simp only [Except.ok.injEq] at h
      subst h
      refine ⟨hinv.1, ?_⟩
      intro p hp
      rcases List.mem_append.mp hp with hmem | hmem
      · exact hinv.2 p hmem
      · exact hfa p hmem

theorem processSelect_inv_init (l : List ColumnInfo) (st : NormState)
    (heq : processSelect ⟨[], [], [], [], []⟩ l = .ok st) : stInv st :=
  processSelect_inv l _ st
    ⟨fun c hc => absurd hc (List.not_mem_nil c),
     fun p hp => absurd hp (List.not_mem_nil p)⟩ heq

theorem processOrderBy_inv (l : List (Expr × Bool))
    (st st2 : NormState × List (Expr × Bool))
    (hinv : stInv st.1) (h : processOrderBy st l = .ok st2) : stInv st2.1 := by
  induction l generalizing st with
  | nil =>
    simp only [processOrderBy, Except.ok.injEq] at h
    subst h; exact hinv
  | cons e rest ih =>
    simp only [processOrderBy, Bind.bind, Except.bind] at h
    cases hstep : processOrderByItem st e with
    | error err => simp only [hstep] at h; exact Except.noConfusion h
    | ok stm =>
      simp only [hstep] at h
      exact ih stm (processOrderByItem_inv st stm e hinv hstep) h

/-- Concrete query exhibiting the gap in the primary-invariant claim: an
aggregate inside an `ORDER BY` expression of a query whose select list
extracts no aggregates is copied verbatim into the primary query. -/
def qC1cex : Query :=
  ⟨[⟨.colName "a", none⟩], "t", .const (.int 1),
   [(.aggregate .count (.const (.int 1)), false)], ⟨100, 0⟩⟩

/-- A query with an aggregate in the filter, which `normalize` copies
into the primary unexamined. -/
def qC1cexFilter : Query :=
  ⟨[⟨.colName "a", none⟩], "t", .aggregate .count (.const (.int 1)),
   [], ⟨100, 0⟩⟩

/-- C1 counterexample: `normalize` succeeds on `qC1cex` with the primary
`NormalFormQuery` carrying an `Aggregate` node inside its `order_by`
expressions, and succeeds on `qC1cexFilter` with the primary carrying an
`Aggregate` node in its filter. -/
theorem normalize_c1_counterexample :
    Query.normalize qC1cex =
      .ok (⟨[⟨.colName "a", none⟩], .const (.int 1), [],
            [(.aggregate .count (.const (.int 1)), false)], ⟨100, 0⟩⟩, none) ∧
    Expr.hasAggregate (.aggregate .count (.const (.int 1))) = true ∧
    Query.normalize qC1cexFilter =
      .ok (⟨[⟨.colName "a", none⟩], .aggregate .count (.const (.int 1)), [],
            [], ⟨100, 0⟩⟩, none) :=
  ⟨rfl, rfl, rfl⟩

/-- C1 (amended): for every `Query` whose filter and whose `order_by`
expressions contain no `Aggregate` node, when `normalize` succeeds the
primary `NormalFormQuery` contains no `Aggregate` node anywhere in its
expressions (projection, filter, order_by, or the operand expressions of
its aggregate list), and the primary never has both a non-empty aggregate
list and a non-empty order_by list. -/
theorem normalize_primary_no_aggregates (q : Query)
    (hf : q.filter.hasAggregate = false)
    (ho : ∀ p ∈ q.orderBy, Expr.hasAggregate p.1 = false)
    (primary : NormalFormQuery) (post : Option NormalFormQuery)
    (h : Query.normalize q = .ok (primary, post)) :
    (∀ ci ∈ primary.projection, ci.expr.hasAggregate = false) ∧
    primary.filter.hasAggregate = false ∧
    (∀ p ∈ primary.orderBy, Expr.hasAggregate p.1 = false) ∧
    (∀ p ∈ primary.aggregate, p.2.expr.hasAggregate = false) ∧
    (primary.aggregate ≠ [] → primary.orderBy = []) := by
  simp only [Query.normalize, Bind.bind, Except.bind] at h
  split at h
  · exact Except.noConfusion h
  · rename_i st heq
    have hst : stInv st := processSelect_inv_init q.select st heq
    split at h
    · split at h
      · exact Except.noConfusion h
      · rename_i v heq2
        have hst2 : stInv v.1 := processOrderBy_inv q.orderBy _ v hst heq2
        simp only [Except.ok.injEq, Prod.mk.injEq] at h
        obtain ⟨h1, h2⟩ := h
        subst h1; subst h2
        refine ⟨hst2.1, hf, ?_, hst2.2, ?_⟩
        · intro p hp; exact absurd hp (List.not_mem_nil p)
        · intro _; rfl
    · rename_i hc
      simp only [Except.ok.injEq, Prod.mk.injEq] at h
      obtain ⟨h1, h2⟩ := h
      subst h1; subst h2
      refine ⟨hst.1, hf, ho, hst.2, ?_⟩
      intro hne
      cases hqo : q.orderBy with
      | nil => rfl
      | cons x xs =>
        exfalso
        apply hc
        have ha : st.aggregate.isEmpty = false := by
          cases hag : st.aggregate with
          | nil => exact absurd hag hne
          | cons y ys => rfl
        simp [ha, hqo]

/-- Witness for C1 at a concrete query: `SELECT SUM(b)` with no order-by
and an aggregate-free filter. -/
def qC1w : Query :=
  ⟨[⟨.aggregate .sumI64 (.colName "b"), none⟩], "t", .const (.int 1),
   [], ⟨100, 0⟩⟩

/-- The primary query `normalize` produces for `qC1w`. -/
def primC1w : NormalFormQuery :=
  ⟨[], .const (.int 1), [(.sumI64, ⟨.colName "b", none⟩)], [], ⟨100, 0⟩⟩

theorem normalize_primary_no_aggregates_witness :
    (∀ ci ∈ primC1w.projection, ci.expr.hasAggregate = false) ∧
    primC1w.filter.hasAggregate = false ∧
    (∀ p ∈ primC1w.orderBy, Expr.hasAggregate p.1 = false) ∧
    (∀ p ∈ primC1w.aggregate, p.2.expr.hasAggregate = false) ∧
    (primC1w.aggregate ≠ [] → primC1w.orderBy = []) :=
  normalize_primary_no_aggregates qC1w rfl
    (fun p hp => absurd hp (List.not_mem_nil p)) primC1w none rfl

/-- C3: the post-pass condition and the limit/filter bookkeeping of
`Query::normalize`. -/
theorem normalize_post_pass (q : Query) (primary : NormalFormQuery)
    (post : Option NormalFormQuery)
    (h : Query.normalize q = .ok (primary, post)) :
    (post.isSome = true ↔ requireFinalPass q = .ok true) ∧
    (∀ p, post = some p → p.filter = .const (.int 1) ∧ p.limit = q.limit ∧
       primary.limit = ⟨u64MAX, 0⟩) ∧
    (post = none → primary.orderBy = q.orderBy ∧ primary.limit = q.limit) := by
  simp only [Query.normalize, Bind.bind, Except.bind] at h
  split at h
  · exact Except.noConfusion h
  · rename_i st heq
    have hreq : requireFinalPass q =
        .ok ((!st.aggregate.isEmpty && !q.orderBy.isEmpty)
          || st.finalProjection.any (fun ci => !ci.expr.isColName)) := by
      simp only [requireFinalPass, Bind.bind, Except.bind, heq]
    split at h
    · rename_i hc
      split at h
      · exact Except.noConfusion h
      · rename_i v heq2
        simp only [Except.ok.injEq, Prod.mk.injEq] at h
        obtain ⟨h1, h2⟩ := h
        subst h1; subst h2
        refine ⟨?_, ?_, ?_⟩
        · rw [hreq, hc]; simp
        · intro p hp
          simp only [Option.some.injEq] at hp
          subst hp
          exact ⟨rfl, rfl, rfl⟩
        · intro hn; exact Option.noConfusion hn
    · rename_i hc
      simp only [Except.ok.injEq, Prod.mk.injEq] at h
      obtain ⟨h1, h2⟩ := h
      subst h1; subst h2
      rw [Bool.not_eq_true] at hc
      refine ⟨?_, ?_, ?_⟩
      · rw [hreq, hc]; simp
      · intro p hp; exact Option.noConfusion hp
      · intro _; exact ⟨rfl, rfl⟩

/-- The concrete query `SELECT SUM(b) + 1 FROM t LIMIT 7`: its final
projection is not a bare column, so normalization produces a post pass. -/
def qC3w : Query :=
  ⟨[⟨.func2 .add (.aggregate .sumI64 (.colName "b")) (.const (.int 1)),
     none⟩], "t", .const (.int 1), [], ⟨7, 0⟩⟩

/-- The primary query `normalize` produces for `qC3w`. -/
def primC3 : NormalFormQuery :=
  ⟨[], .const (.int 1), [(.sumI64, ⟨.colName "b", none⟩)], [], ⟨u64MAX, 0⟩⟩

/-- The post-pass query `normalize` produces for `qC3w`. -/
def postC3 : NormalFormQuery :=
  ⟨[⟨.func2 .add (.colName "_ca0") (.const (.int 1)), none⟩],
   .const (.int 1), [], [], ⟨7, 0⟩⟩

/-- Witness for C3 at `qC3w`. -/
theorem normalize_post_pass_witness :
    ((some postC3).isSome = true ↔ requireFinalPass qC3w = .ok true) ∧
    (∀ p, some postC3 = some p → p.filter = .const (.int 1) ∧
       p.limit = qC3w.limit ∧ primC3.limit = ⟨u64MAX, 0⟩) ∧
    (some postC3 = none → primC3.orderBy = qC3w.orderBy ∧
       primC3.limit = qC3w.limit) :=
  normalize_post_pass qC3w primC3 (some postC3) rfl

end Norm

/-- C7: casting twice equals casting once — whenever `Cast::<T>::cast`
is defined on `x` (no panic, an impl exists), its result is a value of
type `T`, on which a second cast is the blanket identity impl. -/
theorem Cst.cast_closure (T : Cst.CTarget) (x y : Cst.RVal)
    (h : Cst.rustCast T x = some y) : Cst.rustCast T y = some y :=
  Cst.rustCast_idem T x y h

/-- Witness for C7: `cast::<u8>(300u16) = 44`, and casting `44u8` to
`u8` again returns `44`. -/
theorem Cst.cast_closure_witness :
    Cst.rustCast .u8 (.u16 300) = some (.u8 44) ∧
    Cst.rustCast .u8 (.u8 44) = some (.u8 44) :=
  ⟨rfl, Cst.cast_closure .u8 (.u16 300) (.u8 44) rfl⟩

/-- C10: every narrowing integer cast in `type_conversion.rs` truncates
to the target width (`v mod 2^w`, two's complement for the `i64`
source), and every widening cast from an unsigned source preserves the
value exactly. -/
theorem Cst.cast_truncation (v : Nat) (i : Int) :
    Cst.rustCast .u8 (.u16 v) = some (.u8 (v % 2 ^ 8)) ∧
    Cst.rustCast .u8 (.u32 v) = some (.u8 (v % 2 ^ 8)) ∧
    Cst.rustCast .u8 (.u64 v) = some (.u8 (v % 2 ^ 8)) ∧
    Cst.rustCast .u8 (.i64 i) = some (.u8 (i % 2 ^ 8).toNat) ∧
    Cst.rustCast .u16 (.u32 v) = some (.u16 (v % 2 ^ 16)) ∧
    Cst.rustCast .u16 (.u64 v) = some (.u16 (v % 2 ^ 16)) ∧
    Cst.rustCast .u16 (.i64 i) = some (.u16 (i % 2 ^ 16).toNat) ∧
    Cst.rustCast .u32 (.u64 v) = some (.u32 (v % 2 ^ 32)) ∧
    Cst.rustCast .u32 (.i64 i) = some (.u32 (i % 2 ^ 32).toNat) ∧
    Cst.rustCast .u16 (.u8 v) = some (.u16 v) ∧
    Cst.rustCast .u32 (.u8 v) = some (.u32 v) ∧
    Cst.rustCast .u64 (.u8 v) = some (.u64 v) ∧
    Cst.rustCast .i64 (.u8 v) = some (.i64 v) ∧
    Cst.rustCast .u32 (.u16 v) = some (.u32 v) ∧
    Cst.rustCast .u64 (.u16 v) = some (.u64 v) ∧
    Cst.rustCast .i64 (.u16 v) = some (.i64 v) ∧
    Cst.rustCast .u64 (.u32 v) = some (.u64 v) ∧
    Cst.rustCast .i64 (.u32 v) = some (.i64 v) := by
  exact ⟨rfl, rfl, rfl, rfl, rfl, rfl, rfl, rfl, rfl,
         rfl, rfl, rfl, rfl, rfl, rfl, rfl, rfl, rfl⟩

namespace Psr

/-- `SQLOperator` from the vendored `sqlparser` crate (the binary
operators of its AST). -/
inductive SQLOperator where
  | Plus | Minus | Multiply | Divide | Modulus
  | Gt | Lt | GtEq | LtEq | Eq | NotEq
  | And | Or | Not | Like | NotLike
  deriving DecidableEq, Repr

/-- Rust `Debug` rendering of an `SQLOperator` (the variant name). -/
def SQLOperator.debugStr : SQLOperator → String
  | .Plus => "Plus" | .Minus => "Minus" | .Multiply => "Multiply"
  | .Divide => "Divide" | .Modulus => "Modulus"
  | .Gt => "Gt" | .Lt => "Lt" | .GtEq => "GtEq" | .LtEq => "LtEq"
  | .Eq => "Eq" | .NotEq => "NotEq"
  | .And => "And" | .Or => "Or" | .Not => "Not"
  | .Like => "Like" | .NotLike => "NotLike"

/-- `Value` from the vendored `sqlparser` crate (the literal values
referenced by `parser.rs`; `double` stands for the remaining variants
hit by the catch-all arm of `get_raw_val`). -/
inductive Value where
  | long (i : Int)
  | string (s : String)
  | singleQuotedString (s : String)
  | doubleQuotedString (s : String)
  | null
  | double (bits : Int)
  deriving DecidableEq, Repr

/-- `SQLOrderByExpr` is a pair of the ordered expression and its `asc`
flag. `ASTNode` is the `sqlparser` AST (the node shapes referenced by
`parser.rs`). -/
inductive ASTNode where
  | SQLSelect (projection : List ASTNode) (relation : Option ASTNode)
      (selection : Option ASTNode)
      (orderBy : Option (List (ASTNode × Bool)))
      (groupBy : Option (List ASTNode)) (having : Option ASTNode)
      (limit : Option ASTNode)
  | SQLBinaryExpr (left : ASTNode) (op : SQLOperator) (right : ASTNode)
  | SQLValue (v : Value)
  | SQLIdentifier (s : String)
  | SQLFunction (id : String) (args : List ASTNode)
  | SQLWildcard

/-- Placeholder for Rust's `Debug` rendering of an AST node inside
`NotImplemented` payloads produced by catch-all arms (the exact text of
those payloads is not load-bearing for any claim). -/
def ASTNode.debugStr : ASTNode → String
  | .SQLSelect _ _ _ _ _ _ _ => "SQLSelect"
  | .SQLBinaryExpr _ _ _ => "SQLBinaryExpr"
  | .SQLValue _ => "SQLValue"
  | .SQLIdentifier s => "SQLIdentifier(" ++ s ++ ")"
  | .SQLFunction id _ => "SQLFunction(" ++ id ++ ")"
  | .SQLWildcard => "SQLWildcard"

/-- ASCII uppercase of one character (Rust `to_uppercase` restricted to
ASCII, which covers every identifier the parser compares). -/
def upChar (c : Char) : Char :=
  if 97 ≤ c.toNat ∧ c.toNat ≤ 122 then Char.ofNat (c.toNat - 32) else c

/-- ASCII uppercase of a string (`id.to_uppercase()` in `parser.rs`). -/
def toUpperAscii (s : String) : String := ⟨s.data.map upChar⟩

/-- `map_operator` from `syntax/parser.rs`. -/
def mapOperator (o : SQLOperator) : Except QueryError Func2Type :=
  match o with
  | .And => .ok .and
  | .Plus => .ok .add
  | .Minus => .ok .subtract
  | .Multiply => .ok .multiply
  | .Divide => .ok .divide
  | .Gt => .ok .gt
  | .Lt => .ok .lt
  | .Eq => .ok .equals
  | .NotEq => .ok .notEquals
  | .Or => .ok .or
  | _ => .error (.notImplemented ("Unsupported operator " ++ o.debugStr))

/-- `get_raw_val` from `syntax/parser.rs`. -/
def getRawVal (constant : Value) : Except QueryError RawVal :=
  match constant with
  | .long i => .ok (.int i)
  | .string s => .ok (.str s)
  | .singleQuotedString s => .ok (.str s)
  | .doubleQuotedString s => .ok (.str s)
  | .null => .ok .null
  | c => .error (.notImplemented ("Value " ++ (repr c).pretty))

/-- `expr` from `syntax/parser.rs`. The `NotImplemented` payload for an
unknown function id is Rust's `format ("{:?}", id)`, the id in double
quotes. -/
def exprFn : ASTNode → Except QueryError Expr
  | .SQLBinaryExpr l op r => do
    let o ← mapOperator op
    let le ← exprFn l
    let re ← exprFn r
    .ok (.func2 o le re)
  | .SQLValue lit => do
    let v ← getRawVal lit
    .ok (.const v)
  | .SQLIdentifier s => .ok (.colName s)
  | .SQLFunction id args =>
    if toUpperAscii id = "TO_YEAR" then
      match args with
      | [a] => do
        let e ← exprFn a
        .ok (.func1 .toYear e)
      | _ => .error (.parseError "Expected one argument in COUNT function")
    else
      .error (.notImplemented ("\"" ++ id ++ "\""))
  | n => .error (.notImplemented n.debugStr)

/-- The loop body of `get_select_aggregate` from `syntax/parser.rs`,
with the `select` and `aggregate` vectors threaded explicitly. -/
def gsaGo : List ASTNode → List Expr → List (Aggregator × Expr) →
    Except QueryError (List Expr × List (Aggregator × Expr))
  | [], sel, agg => .ok (sel, agg)
  | e :: rest, sel, agg =>
    match e with
    | .SQLFunction id args =>
      if toUpperAscii id = "COUNT" then
        match args with
        | [a] => do
          let x ← exprFn a
          gsaGo rest sel (agg ++ [(.count, x)])
        | _ => .error (.parseError "Expected one argument in COUNT function")
      else if toUpperAscii id = "SUM" then
        match args with
        | [a] => do
          let x ← exprFn a
          gsaGo rest sel (agg ++ [(.sum, x)])
        | _ => .error (.parseError "Expected one argument in SUM function")
      else do
        let x ← exprFn e
        gsaGo rest (sel ++ [x]) agg
    | .SQLWildcard => gsaGo rest (sel ++ [Expr.colName "*"]) agg
    | _ => do
      let x ← exprFn e
      gsaGo rest (sel ++ [x]) agg

/-- `get_select_aggregate` from `syntax/parser.rs`. -/
def getSelectAggregate (projection : List ASTNode) :
    Except QueryError (List Expr × List (Aggregator × Expr)) :=
  gsaGo projection [] []

/-- `get_table_name` from `syntax/parser.rs`. -/
def getTableName (relation : Option ASTNode) : Except QueryError String :=
  match relation with
  | some (.SQLIdentifier tableName) => .ok tableName
  | some s => .error (.parseError
      ("Invalid expression for table name: " ++ s.debugStr))
  | none => .error (.parseError "Table name missing.")

/-- `get_order_by` from `syntax/parser.rs`: orders are `(expr, !asc)`. -/
def getOrderBy : Option (List (ASTNode × Bool)) →
    Except QueryError (List (Expr × Bool))
  | none => .ok []
  | some es => go es
where
  go : List (ASTNode × Bool) → Except QueryError (List (Expr × Bool))
    | [] => .ok []
    | e :: rest => do
      let x ← exprFn e.1
      let r ← go rest
      .ok ((x, !e.2) :: r)

/-- `get_limit` from `syntax/parser.rs`: `int as u64` wraps into the
u64 range; a missing limit defaults to 100. -/
def getLimit : Option ASTNode → Except QueryError Nat
  | some (.SQLValue (.long i)) => .ok (i.emod 18446744073709551616).toNat
  | none => .ok 100
  | l => .error (.notImplemented
      ("Invalid expression in limit clause: " ++
        (match l with | some n => n.debugStr | none => "None")))

/-- `get_query_components` from `syntax/parser.rs`. -/
def getQueryComponents (ast : ASTNode) :
    Except QueryError (List ASTNode × Option ASTNode × Option ASTNode ×
      Option (List (ASTNode × Bool)) × Option ASTNode) :=
  match ast with
  | .SQLSelect projection relation selection orderBy groupBy having limit =>
    if groupBy.isSome then .error (.notImplemented "Group By")
    else if having.isSome then .error (.notImplemented "Having")
    else .ok (projection, relation, selection, orderBy, limit)
  | n => .error (.notImplemented n.debugStr)

/-- `Query` as constructed by this revision of `syntax/parser.rs`
(it still carries a separate `aggregate` list). -/
structure ParsedQuery where
  select : List Expr
  table : String
  filter : Expr
  aggregate : List (Aggregator × Expr)
  orderBy : List (Expr × Bool)
  limit : LimitClause
  deriving DecidableEq, Repr

/-- `parse_query` from `syntax/parser.rs`, starting from the AST
delivered by the external `sqlparser` crate (the string-level parse is
out of scope, per the spec). -/
def parseQueryAst (ast : ASTNode) : Except QueryError ParsedQuery := do
  let (projection, relation, selection, orderBy, limit) ←
    getQueryComponents ast
  let (select, aggregate) ← getSelectAggregate projection
  let table ← getTableName relation
  let filter ← match selection with
    | some sel => exprFn sel
    | none => .ok (Expr.const (.int 1))
  let ob ← getOrderBy orderBy
  let lim ← getLimit limit
  .ok ⟨select, table, filter, aggregate, ob, ⟨lim, 0⟩⟩

/-- Whether a parse succeeded. -/
def isOk : Except QueryError ParsedQuery → Bool
  | .ok _ => true
  | .error _ => false

/-- A `SELECT a <op> b FROM t` AST. -/
def mkBinSelect (op : SQLOperator) : ASTNode :=
  .SQLSelect [.SQLBinaryExpr (.SQLIdentifier "a") op (.SQLIdentifier "b")]
    (some (.SQLIdentifier "t")) none none none none none

/-- A `SELECT f(a) FROM t` AST. -/
def mkFnSelect (f : String) : ASTNode :=
  .SQLSelect [.SQLFunction f [.SQLIdentifier "a"]]
    (some (.SQLIdentifier "t")) none none none none none

/-- C4 counterexample: `MIN` and `MAX` in a select list, and the
operators `<=` and `>=`, each make `parse_query` return a
`NotImplemented` error in this revision of `parser.rs` (only `COUNT`,
`SUM`, `TO_YEAR` and the ten mapped operators are supported). -/
theorem parse_query_c4_counterexample :
    parseQueryAst (mkFnSelect "MIN") =
      .error (.notImplemented "\"MIN\"") ∧
    parseQueryAst (mkFnSelect "MAX") =
      .error (.notImplemented "\"MAX\"") ∧
    parseQueryAst (mkBinSelect .LtEq) =
      .error (.notImplemented "Unsupported operator LtEq") ∧
    parseQueryAst (mkBinSelect .GtEq) =
      .error (.notImplemented "Unsupported operator GtEq") := by
  refine ⟨?_, ?_, ?_, ?_⟩ <;> decide

/-- C4 (amended): every operator in `+ - * / AND OR = <> < >` and every
function in `COUNT, SUM, TO_YEAR` yields `Ok` on a well-formed SELECT
that applies it to column identifiers. -/
theorem parse_query_supported_tokens :
    (([.And, .Plus, .Minus, .Multiply, .Divide, .Gt, .Lt, .Eq, .NotEq,
       .Or] : List SQLOperator).all
      (fun op => isOk (parseQueryAst (mkBinSelect op)))) = true ∧
    ((["COUNT", "SUM", "TO_YEAR"] : List String).all
      (fun f => isOk (parseQueryAst (mkFnSelect f)))) = true := by
  constructor <;> decide

end Psr

namespace Run

/-- `EncodingType` from `engine/data_types.rs` (the variants enumerated
by the sources, including `locustdb-derive`). -/
inductive EncodingType where
  | U8 | U16 | U32 | U64 | I64 | F64 | Str | OptStr | USize | Null
  | ScalarI64 | ScalarStr
  | NullableU8 | NullableU16 | NullableU32 | NullableI64 | NullableF64
  | NullableStr
  deriving DecidableEq, Repr

/-- `Filter` from the planner as used by `NormalFormQuery::run`: the
active row-selection state. Only the constructor is tracked; the
buffers it carries are irrelevant to the control flow modelled here. -/
inductive Filter where
  | none
  | u8
  | nullableU8
  | indices
  deriving DecidableEq, Repr

/-- The `match filter_plan.tag` at the start of `NormalFormQuery::run`
that builds the initial filter: `U8` and `NullableU8` select the
corresponding filter, every other tag leaves `Filter::None`. -/
def initialFilter (tag : EncodingType) : Filter :=
  match tag with
  | .U8 => .u8
  | .NullableU8 => .nullableU8
  | _ => .none

/-- The post-sort filter rewrite of `NormalFormQuery::run` (the
`if let Some(sort_indices)` block): each filter state is combined with
the sort indices into `Filter::Indices`; the `Filter::Indices` input
arm is `unreachable!()`, modelled as `none`. -/
def combineSortFilter (f : Filter) : Option Filter :=
  match f with
  | .u8 => some .indices
  | .nullableU8 => some .indices
  | .none => some .indices
  | .indices => Option.none

/-- The filter flow of `NormalFormQuery::run`: the initial filter is
built from the filter plan tag, is not modified by the sort loop, and
is combined with the sort indices only when an `ORDER BY` produced
them. -/
def runFilterFlow (tag : EncodingType) (hasSortIndices : Bool) :
    Option Filter :=
  if hasSortIndices then combineSortFilter (initialFilter tag)
  else some (initialFilter tag)

/-- One sort operator emitted by the ordering section of
`NormalFormQuery::run`. -/
inductive SortOp where
  | topN (limit : Nat) (desc : Bool)
  | sortBy (desc : Bool) (stable : Bool)
  deriving DecidableEq, Repr

/-- One iteration of the `for (plan, desc) in self.order_by.iter().rev()`
loop of `NormalFormQuery::run`: `nKeys` is `self.order_by.len()`,
`limit` is the precomputed `self.limit.limit + self.limit.offset`, and
the boolean state tracks whether `sort_indices` is `Some`. -/
def sortStep (nKeys limit plen : Nat) (st : Bool × List SortOp)
    (desc : Bool) : Bool × List SortOp :=
  if limit < plen / 2 ∧ nKeys = 1 then
    (true, st.2 ++ [SortOp.topN limit desc])
  else if st.1 then
    (true, st.2 ++ [SortOp.sortBy desc true])
  else
    (true, st.2 ++ [SortOp.sortBy desc false])

/-- The sort operators emitted by `NormalFormQuery::run` for the given
`order_by` descending flags, limit clause, and partition length, in
emission order. `run` computes `limit = self.limit.limit +
self.limit.offset` before the loop. -/
def planSortsRun (descs : List Bool) (lc : LimitClause) (plen : Nat) :
    List SortOp :=
  (descs.reverse.foldl
    (sortStep descs.length (lc.limit + lc.offset) plen) (false, [])).2

theorem sortStep_stable (nKeys limit plen : Nat) (l : List Bool)
    (acc : List SortOp) (hno : ¬(limit < plen / 2 ∧ nKeys = 1)) :
    l.foldl (sortStep nKeys limit plen) (true, acc) =
      (true, acc ++ l.map (fun d => SortOp.sortBy d true)) := by
  induction l generalizing acc with
  | nil => simp
  | cons d rest ih =>
    rw [List.foldl_cons, List.map_cons]
    have hstep : sortStep nKeys limit plen (true, acc) d =
        (true, acc ++ [SortOp.sortBy d true]) := by
      simp [sortStep, hno]
    rw [hstep, ih]
    simp

/-- C5 counterexample: with `limit = 1`, `offset = 10`, partition length
`10` and a single sort key, the query's limit (1) is below half the
partition length (5), yet `run` emits a plain sort rather than the
bounded-heap top-N operator, because the code compares
`limit + offset = 11` against `partition_len / 2`. -/
theorem run_sort_planning_counterexample :
    (1 : Nat) < 10 / 2 ∧ ([false] : List Bool).length = 1 ∧
    planSortsRun [false] ⟨1, 10⟩ 10 = [SortOp.sortBy false false] := by
  decide

/-- C5 (amended): `run` emits the bounded-heap top-N operator exactly
when `limit + offset` is less than half the partition length and there
is exactly one sort key; otherwise it emits one sort per key, processed
in reverse order, unstable for the first key sorted and stable for
every subsequent key. -/
theorem run_sort_planning (descs : List Bool) (lc : LimitClause)
    (plen : Nat) (hne : descs ≠ []) :
    (lc.limit + lc.offset < plen / 2 ∧ descs.length = 1 →
      planSortsRun descs lc plen =
        descs.map (fun d => SortOp.topN (lc.limit + lc.offset) d)) ∧
    (¬(lc.limit + lc.offset < plen / 2 ∧ descs.length = 1) →
      planSortsRun descs lc plen =
        match descs.reverse with
        | [] => []
        | d :: rest =>
          SortOp.sortBy d false :: rest.map (fun d2 => SortOp.sortBy d2 true)) := by
  constructor
  · rintro ⟨h1, h2⟩
    obtain ⟨d, hd⟩ := List.length_eq_one.mp h2
    subst hd
    simp [planSortsRun, sortStep, h1]
  · intro hno
    cases hrev : descs.reverse with
    | nil =>
      exact absurd (by simpa using congrArg List.reverse hrev) hne
    | cons d rest =>
      have hfold : planSortsRun descs lc plen =
          ((d :: rest).foldl
            (sortStep descs.length (lc.limit + lc.offset) plen)
            (false, [])).2 := by
        rw [planSortsRun, hrev]
      rw [hfold, List.foldl_cons]
      have hstep : sortStep descs.length (lc.limit + lc.offset) plen
          (false, []) d = (true, [SortOp.sortBy d false]) := by
        simp [sortStep, hno]
      rw [hstep, sortStep_stable _ _ _ _ _ hno]
      simp

/-- Witness for C5: one descending key, `limit + offset = 2`, partition
length 10. -/
theorem run_sort_planning_witness :
    (((⟨2, 0⟩ : LimitClause).limit + (⟨2, 0⟩ : LimitClause).offset < 10 / 2 ∧
        ([true] : List Bool).length = 1 →
      planSortsRun [true] ⟨2, 0⟩ 10 =
        ([true] : List Bool).map
          (fun d => SortOp.topN
            ((⟨2, 0⟩ : LimitClause).limit + (⟨2, 0⟩ : LimitClause).offset) d)) ∧
    (¬((⟨2, 0⟩ : LimitClause).limit + (⟨2, 0⟩ : LimitClause).offset < 10 / 2 ∧
        ([true] : List Bool).length = 1) →
      planSortsRun [true] ⟨2, 0⟩ 10 =
        match ([true] : List Bool).reverse with
        | [] => []
        | d :: rest =>
          SortOp.sortBy d false ::
            rest.map (fun d2 => SortOp.sortBy d2 true))) :=
  run_sort_planning [true] ⟨2, 0⟩ 10 (by decide)

/-- C9: the filter in force when sort indices are combined with the
filter in `NormalFormQuery::run` is the one built from the filter plan
tag, which is always `None`, `U8`, or `NullableU8` and never `Indices`,
so the `unreachable!()` arm of the post-sort filter rewrite can never
execute. -/
theorem run_filter_never_indices (tag : EncodingType) (hasSort : Bool) :
    initialFilter tag ≠ Filter.indices ∧
    runFilterFlow tag hasSort ≠ Option.none := by
  cases tag <;> cases hasSort <;> exact (by decide)

end Run

namespace Reify

/-- The `Type` enum of `locustdb-derive/src/reify_types.rs`: the runtime
encoding tags plus the aggregator values usable in productions. -/
inductive Ty where
  | U8 | U16 | U32 | U64 | I64 | F64 | Str | OptStr
  | NullableU8 | NullableU16 | NullableU32 | NullableI64 | NullableF64
  | NullableStr
  | ScalarI64 | ScalarStr | USize
  | AggregatorSumI64 | AggregatorSumF64 | AggregatorCount
  | AggregatorMaxI64 | AggregatorMaxF64 | AggregatorMinI64
  | AggregatorMinF64
  deriving DecidableEq, Repr

/-- Rust `Debug` rendering of the runtime value matched by the generated
dispatch (the `EncodingType` variant name, or the `Aggregator` variant
name for aggregator values). -/
def Ty.debugStr : Ty → String
  | .U8 => "U8" | .U16 => "U16" | .U32 => "U32" | .U64 => "U64"
  | .I64 => "I64" | .F64 => "F64" | .Str => "Str" | .OptStr => "OptStr"
  | .NullableU8 => "NullableU8" | .NullableU16 => "NullableU16"
  | .NullableU32 => "NullableU32" | .NullableI64 => "NullableI64"
  | .NullableF64 => "NullableF64" | .NullableStr => "NullableStr"
  | .ScalarI64 => "ScalarI64" | .ScalarStr => "ScalarStr"
  | .USize => "USize"
  | .AggregatorSumI64 => "SumI64" | .AggregatorSumF64 => "SumF64"
  | .AggregatorCount => "Count"
  | .AggregatorMaxI64 => "MaxI64" | .AggregatorMaxF64 => "MaxF64"
  | .AggregatorMinI64 => "MinI64" | .AggregatorMinF64 => "MinF64"

/-- The `types` table of `reify_types.rs`: type-class name to the list
of encodings it enumerates. -/
def types (t : String) : Option (List Ty) :=
  match t with
  | "Str" => some [.Str]
  | "IntegerNoU64" => some [.U8, .U16, .U32, .I64]
  | "NumberNoU64" => some [.U8, .U16, .U32, .I64, .F64]
  | "Integer" => some [.U8, .U16, .U32, .U64, .I64]
  | "Float" => some [.F64]
  | "NullableInteger" =>
    some [.NullableU8, .NullableU16, .NullableU32, .NullableI64]
  | "NullableFloat" => some [.NullableF64]
  | "Primitive" =>
    some [.U8, .U16, .U32, .U64, .I64, .F64, .Str, .OptStr]
  | "NullablePrimitive" =>
    some [.NullableU8, .NullableU16, .NullableU32, .NullableI64,
          .NullableF64, .NullableStr]
  | "PrimitiveUSize" =>
    some [.U8, .U16, .U32, .U64, .I64, .F64, .Str, .USize]
  | "PrimitiveNoU64" => some [.U8, .U16, .U32, .I64, .F64, .Str]
  | "Const" => some [.ScalarI64, .ScalarStr]
  | "ScalarI64" => some [.ScalarI64]
  | "ScalarStr" => some [.ScalarStr]
  | "IntAggregator" =>
    some [.AggregatorCount, .AggregatorSumI64, .AggregatorMaxI64,
          .AggregatorMinI64]
  | "FloatAggregator" =>
    some [.AggregatorCount, .AggregatorSumF64, .AggregatorMaxF64,
          .AggregatorMinF64]
  | _ => none

/-- A type-variable declaration `v0, v1, ... : Class`. -/
structure Declaration where
  vars : List String
  t : String
  deriving DecidableEq, Repr

/-- A production: a comma-separated list of declarations (the body
expression it guards does not affect the dispatch control flow). -/
structure Production where
  specs : List Declaration
  deriving DecidableEq, Repr

/-- The error text emitted by the generated same-tag checks:
`fatal ("Expected identical types for `x` (tag) and `y` (tag).")`. -/
def identicalTypesMsg (x : String) (tx : Ty) (y : String) (ty2 : Ty) :
    String :=
  "Expected identical types for `" ++ x ++ "` (" ++ Ty.debugStr tx ++
    ") and `" ++ y ++ "` (" ++ Ty.debugStr ty2 ++ ")."

/-- Rust `Debug` rendering of the left-nested scrutinee tuple
`((t1, t2), t3)` built by `reify_types`. -/
def debugTuple : List Ty → String
  | [] => ""
  | t :: rest =>
    rest.foldl (fun acc u => "(" ++ acc ++ ", " ++ Ty.debugStr u ++ ")")
      (Ty.debugStr t)

/-- The error text of the generated fallback arm:
`fatal ("<op> not supported for type <tags>")`. -/
def notSupportedMsg (name : String) (ts : List Ty) : String :=
  name ++ " not supported for type " ++ debugTuple ts

/-- The first same-declaration tag mismatch found by the sequence of
`if v0.tag != v.tag` checks the macro emits ahead of the match (one
check per later variable of each multi-variable declaration, in
production order): the reported pair is the declaration's first
variable and the offending later variable. -/
def declMismatchPair (tags : String → Ty) (d : Declaration) :
    Option (String × String) :=
  match d.vars with
  | [] => none
  | v0 :: rest =>
    (rest.find? fun v => tags v0 != tags v).map fun v => (v0, v)

/-- First mismatch among the declarations of one production. -/
def specsMismatch (tags : String → Ty) :
    List Declaration → Option (String × String)
  | [] => none
  | d :: rest =>
    match declMismatchPair tags d with
    | some r => some r
    | none => specsMismatch tags rest

/-- First mismatch over all productions. -/
def firstMismatch (tags : String → Ty) :
    List Production → Option (String × String)
  | [] => none
  | p :: rest =>
    match specsMismatch tags p.specs with
    | some r => some r
    | none => firstMismatch tags rest

/-- The variable group leaders whose tags form the match scrutinee
(the first variable of each declaration of the first production;
`reify_types` checks that later productions declare the same groups). -/
def leaders (prods : List Production) : List String :=
  match prods with
  | [] => []
  | p :: _ => p.specs.map fun d => d.vars.headD ""

/-- The cross product of the type domains, first component varying
fastest, as enumerated by the odometer loop of `reify_types`. -/
def crossProduct : List (List Ty) → List (List Ty)
  | [] => [[]]
  | d :: rest => (crossProduct rest).flatMap fun c => d.map fun x => x :: c

/-- The tag tuples of the match arms generated for one production. -/
def prodArms (p : Production) : List (List Ty) :=
  crossProduct (p.specs.map fun d => (types d.t).getD [])

/-- First production whose generated arms match the scrutinee tuple. -/
def findArm : List Production → List Ty → Nat → Option Nat
  | [], _, _ => none
  | p :: rest, scrut, i =>
    if scrut ∈ prodArms p then some i else findArm rest scrut (i + 1)

/-- The runtime behavior of the dispatch code generated by
`reify_types` for an operator `name` and productions `prods`, at an
environment `tags` giving each variable's runtime encoding tag (or
aggregator value): the emitted same-tag checks run first, then the
match on the tuple of group-leader tags, whose fallback arm produces
the not-supported error. On success the matched production index and
the tag tuple are returned. -/
def dispatch (name : String) (prods : List Production)
    (tags : String → Ty) : Except String (Nat × List Ty) :=
  match firstMismatch tags prods with
  | some (x, y) => .error (identicalTypesMsg x (tags x) y (tags y))
  | none =>
    let scrut := (leaders prods).map tags
    match findArm prods scrut 0 with
    | some i => .ok (i, scrut)
    | none => .error (notSupportedMsg name scrut)

/-- Whether declaration `d` declares two variables with different
runtime tags (equality of tags is transitive, so comparing the first
variable against each later one detects every pairwise mismatch,
exactly as the emitted checks do). -/
def declHasMismatch (tags : String → Ty) (d : Declaration) : Bool :=
  match d.vars with
  | [] => false
  | v0 :: rest => rest.any fun v => tags v0 != tags v

/-- Whether `x` and `y` are declared together in `d`, with `x` the
declaration's first variable. -/
def isDeclHeadPair (d : Declaration) (x y : String) : Bool :=
  match d.vars with
  | [] => false
  | v0 :: rest => x == v0 && decide (y ∈ rest)

theorem declMismatchPair_spec (tags : String → Ty) (d : Declaration)
    (x y : String) (h : declMismatchPair tags d = some (x, y)) :
    isDeclHeadPair d x y = true ∧ tags x ≠ tags y := by
  unfold declMismatchPair at h
  cases hv : d.vars with
  | nil =>
    simp only [hv] at h
    exact Option.noConfusion h
  | cons v0 rest =>
    simp only [hv] at h
    cases hf : rest.find? fun v => tags v0 != tags v with
    | none =>
      simp only [hf] at h
      exact Option.noConfusion h
    | some w =>
      simp only [hf, Option.map] at h
      simp only [Option.some.injEq, Prod.mk.injEq] at h
      obtain ⟨hx, hy⟩ := h
      subst hx; subst hy
      have hmem := List.mem_of_find?_eq_some hf
      have hpred := List.find?_some hf
      rw [bne_iff_ne] at hpred
      refine ⟨?_, hpred⟩
      simp [isDeclHeadPair, hv, hmem]

theorem declMismatchPair_isSome (tags : String → Ty) (d : Declaration)
    (h : declHasMismatch tags d = true) :
    (declMismatchPair tags d).isSome = true := by
  unfold declHasMismatch at h
  unfold declMismatchPair
  cases hv : d.vars with
  | nil =>
    simp only [hv] at h
    exact Bool.noConfusion h
  | cons v0 rest =>
    simp only [hv] at h ⊢
    rw [List.any_eq_true] at h
    obtain ⟨w, hw, hpw⟩ := h
    have hfs : (rest.find? fun v => tags v0 != tags v).isSome :=
      List.find?_isSome.mpr ⟨w, hw, hpw⟩
    cases hf : rest.find? fun v => tags v0 != tags v with
    | none => rw [hf] at hfs; exact absurd hfs (by simp)
    | some u => simp

theorem specsMismatch_isSome (tags : String → Ty) (l : List Declaration)
    (h : (l.any fun d => declHasMismatch tags d) = true) :
    (specsMismatch tags l).isSome = true := by
  induction l with
  | nil => simp at h
  | cons d rest ih =>
    rw [List.any_cons] at h
    cases hd : declMismatchPair tags d with
    | some r => simp [specsMismatch, hd]
    | none =>
      have hdm : declHasMismatch tags d = false := by
        by_contra hc
        rw [Bool.not_eq_false] at hc
        have hs := declMismatchPair_isSome tags d hc
        rw [hd] at hs
        exact absurd hs (by simp)
      rw [hdm, Bool.false_or] at h
      simp only [specsMismatch, hd]
      exact ih h

theorem firstMismatch_isSome (tags : String → Ty) (prods : List Production)
    (h : (prods.any fun p => p.specs.any fun d => declHasMismatch tags d)
        = true) :
    (firstMismatch tags prods).isSome = true := by
  induction prods with
  | nil => simp at h
  | cons p rest ih =>
    rw [List.any_cons] at h
    cases hp : specsMismatch tags p.specs with
    | some r => simp [firstMismatch, hp]
    | none =>
      have hpm : (p.specs.any fun d => declHasMismatch tags d) = false := by
        by_contra hc
        rw [Bool.not_eq_false] at hc
        have hs := specsMismatch_isSome tags p.specs hc
        rw [hp] at hs
        exact absurd hs (by simp)
      rw [hpm, Bool.false_or] at h
      simp only [firstMismatch, hp]
      exact ih h

theorem specsMismatch_spec (tags : String → Ty) (l : List Declaration)
    (x y : String) (h : specsMismatch tags l = some (x, y)) :
    (l.any fun d => isDeclHeadPair d x y) = true ∧ tags x ≠ tags y := by
  induction l with
  | nil => exact Option.noConfusion h
  | cons d rest ih =>
    unfold specsMismatch at h
    cases hd : declMismatchPair tags d with
    | some r =>
      rw [hd] at h
      simp only [Option.some.injEq] at h
      subst h
      obtain ⟨h1, h2⟩ := declMismatchPair_spec tags d x y hd
      exact ⟨by simp [h1], h2⟩
    | none =>
      rw [hd] at h
      obtain ⟨h1, h2⟩ := ih h
      exact ⟨by simp [h1], h2⟩

theorem firstMismatch_spec (tags : String → Ty) (prods : List Production)
    (x y : String) (h : firstMismatch tags prods = some (x, y)) :
    (prods.any fun p => p.specs.any fun d => isDeclHeadPair d x y) = true ∧
    tags x ≠ tags y := by
  induction prods with
  | nil => exact Option.noConfusion h
  | cons p rest ih =>
    unfold firstMismatch at h
    cases hp : specsMismatch tags p.specs with
    | some r =>
      rw [hp] at h
      simp only [Option.some.injEq] at h
      subst h
      obtain ⟨h1, h2⟩ := specsMismatch_spec tags p.specs x y hp
      exact ⟨by simp [h1], h2⟩
    | none =>
      rw [hp] at h
      obtain ⟨h1, h2⟩ := ih h
      exact ⟨by simp [h1], h2⟩

theorem findArm_eq_none (prods : List Production) (scrut : List Ty)
    (hno : ∀ p ∈ prods, scrut ∉ prodArms p) (i : Nat) :
    findArm prods scrut i = none := by
  induction prods generalizing i with
  | nil => rfl
  | cons p rest ih =>
    unfold findArm
    rw [if_neg (hno p (List.mem_cons_self p rest))]
    exact ih (fun q hq => hno q (List.mem_cons_of_mem p hq)) i.succ

/-- C6: the two error paths of a dispatch generated by `reify_types`.
When the emitted same-tag checks find two variables of one declaration
with different runtime tags, the dispatch fails with the
identical-types error naming the declaration's first variable, the
offending variable, and both tags; when the checks pass and the tuple
of group-leader tags matches no enumerated arm of any production's
cross product, it fails with the not-supported error carrying the
operator name and the offending tag tuple. -/
theorem reify_dispatch_errors (name : String) (prods : List Production)
    (tags : String → Ty) (x y : String) :
    ((prods.any fun p => p.specs.any fun d => declHasMismatch tags d) = true →
      (firstMismatch tags prods).isSome = true) ∧
    (firstMismatch tags prods = some (x, y) →
      (prods.any fun p => p.specs.any fun d => isDeclHeadPair d x y) = true ∧
      tags x ≠ tags y ∧
      dispatch name prods tags =
        .error (identicalTypesMsg x (tags x) y (tags y))) ∧
    (firstMismatch tags prods = none →
      (∀ p ∈ prods, (leaders prods).map tags ∉ prodArms p) →
      dispatch name prods tags =
        .error (notSupportedMsg name ((leaders prods).map tags))) := by
  refine ⟨firstMismatch_isSome tags prods, ?_, ?_⟩
  · intro h
    obtain ⟨h1, h2⟩ := firstMismatch_spec tags prods x y h
    refine ⟨h1, h2, ?_⟩
    simp only [dispatch, h]
  · intro h hno
    simp only [dispatch, h, findArm_eq_none prods _ hno 0]

/-- The production `x, y: Integer; ...` with `x` at `U8` and `y` at
`I64` at dispatch time. -/
def prodMismatch : Production := ⟨[⟨["x", "y"], "Integer"⟩]⟩

/-- Tag environment assigning `U8` to `x` and `I64` to everything else. -/
def tagsMismatch : String → Ty := fun v => if v = "x" then .U8 else .I64

/-- The production `u: Integer; ...` dispatched at a `Str` tag, which no
arm of the `Integer` cross product covers. -/
def prodFallback : Production := ⟨[⟨["u"], "Integer"⟩]⟩

/-- Tag environment assigning `Str` to every variable. -/
def tagsFallback : String → Ty := fun _ => .Str

/-- Witness for C6 at the two concrete dispatches. -/
theorem reify_dispatch_errors_witness :
    (firstMismatch tagsMismatch [prodMismatch]).isSome = true ∧
    (([prodMismatch].any fun p =>
        p.specs.any fun d => isDeclHeadPair d "x" "y") = true ∧
      tagsMismatch "x" ≠ tagsMismatch "y" ∧
      dispatch "vec_op" [prodMismatch] tagsMismatch =
        .error (identicalTypesMsg "x" (tagsMismatch "x") "y"
          (tagsMismatch "y"))) ∧
    dispatch "vec_op2" [prodFallback] tagsFallback =
      .error (notSupportedMsg "vec_op2"
        ((leaders [prodFallback]).map tagsFallback)) :=
  ⟨(reify_dispatch_errors "vec_op" [prodMismatch] tagsMismatch "x" "y").1
      (by decide),
   (reify_dispatch_errors "vec_op" [prodMismatch] tagsMismatch "x" "y").2.1
      (by decide),
   (reify_dispatch_errors "vec_op2" [prodFallback] tagsFallback "x" "y").2.2
      (by decide) (by decide)⟩

end Reify
